import Mathlib

/-!
Shallow embedding of the boundary-tag allocator (`src/lib.rs`).

A `BoundaryTag` is the in-line header stored at the start of every block:
`is_alloc`, `is_sentinel`, `free_area_size`, and the two optional neighbor
addresses.  In the Rust code a tag is reached through a `Unique<BoundaryTag>`
pointer and its own address is recovered with `addr(&self)`; here a tag
together with its address is a `PlacedTag`.  Machine `usize` values are
modelled as `Nat`; `mem::size_of::<BoundaryTag>()` is kept abstract as a
parameter `H` (the header size).  `Option` fields mirror the Rust `Option`s,
and the `panic!` in `merge` is modelled as returning `none`.
-/

structure BoundaryTag where
  is_alloc : Bool
  is_sentinel : Bool
  free_area_size : Nat
  prev_tag_addr : Option Nat
  next_tag_addr : Option Nat
deriving Repr, DecidableEq

/-- A boundary tag together with the address it is stored at (the value of
the `Unique<BoundaryTag>` pointer; `BoundaryTag::addr` in the source). -/
structure PlacedTag where
  addr : Nat
  tag : BoundaryTag
deriving Repr, DecidableEq

namespace BoundaryTag

/-- `addr_free_area`: the usable area starts right after the header,
`self.addr() + mem::size_of::<BoundaryTag>()`. -/
def addr_free_area (H : Nat) (t : PlacedTag) : Nat :=
  t.addr + H

/-- `next_tag_of`: reads the stored `next_tag_addr`; dereferencing it yields
the tag located at that address, so the neighbor's own address is exactly the
stored value. -/
def next_tag_of (t : PlacedTag) : Option Nat :=
  t.tag.next_tag_addr

/-- `prev_tag_of`: reads the stored `prev_tag_addr`. -/
def prev_tag_of (t : PlacedTag) : Option Nat :=
  t.tag.prev_tag_addr

/-- `is_next_of`: `self` is the next of `tag` iff `next_tag_of(tag)` exists
and its address equals `self.addr()`. -/
def is_next_of (self other : PlacedTag) : Bool :=
  match next_tag_of other with
  | some a => a == self.addr
  | none => false

/-- `is_prev_of`: `self` is the prev of `tag` iff `prev_tag_of(tag)` exists
and its address equals `self.addr()`. -/
def is_prev_of (self other : PlacedTag) : Bool :=
  match prev_tag_of other with
  | some a => a == self.addr
  | none => false

/-- `from_memory(addr, size)`: writes a fresh tag at `addr` covering `size`
bytes: not allocated, sentinel, free area `size - header`, no neighbors. -/
def from_memory (H : Nat) (addr size : Nat) : PlacedTag :=
  { addr := addr
    tag := { is_alloc := false
             is_sentinel := true
             free_area_size := size - H
             prev_tag_addr := none
             next_tag_addr := none } }

/-- `divide(tag, request_size)`: carve `required_size = request_size + header`
bytes off the tail of the tag's free area.  Declines (returns the tag
unchanged with no new tag) when `free_area_size <= required_size`; otherwise
shrinks the tag by `required_size`, clears its sentinel flag, points its
`next_tag_addr` at the carved block, and initializes the carved block via
`from_memory` with its `prev_tag_addr` set back to the original tag. -/
def divide (H : Nat) (t : PlacedTag) (request_size : Nat) : PlacedTag × Option PlacedTag :=
  let required_size := request_size + H
  if t.tag.free_area_size ≤ required_size then
    (t, none)
  else
    let free_area_size := t.tag.free_area_size
    let t' : PlacedTag :=
      { t with tag := { t.tag with
          free_area_size := t.tag.free_area_size - required_size
          is_sentinel := false
          next_tag_addr := some (addr_free_area H t + free_area_size - required_size) } }
    let new_tag_addr := addr_free_area H t + free_area_size - required_size
    let n := from_memory H new_tag_addr required_size
    let n' : PlacedTag := { n with tag := { n.tag with prev_tag_addr := some t.addr } }
    (t', some n')

/-- `merge(tag_x, tag_y)`: order the pair by the stored links — `tag_x` is
prev of `tag_y`, or `tag_x` is next of `tag_y`; any other combination is the
source's `panic!`, modelled as `none`.  The prev absorbs the next:
`free_area_size += header + next.free_area_size`, and the sentinel flag and
forward link are taken from the next. -/
def merge (H : Nat) (tag_x tag_y : PlacedTag) : Option PlacedTag :=
  let pair : Option (PlacedTag × PlacedTag) :=
    match is_prev_of tag_x tag_y, is_next_of tag_x tag_y with
    | true, false => some (tag_x, tag_y)
    | false, true => some (tag_y, tag_x)
    | _, _ => none
  match pair with
  | none => none
  | some (tag_prev, tag_next) =>
    some { tag_prev with tag := { tag_prev.tag with
        free_area_size := tag_prev.tag.free_area_size + (H + tag_next.tag.free_area_size)
        is_sentinel := tag_next.tag.is_sentinel
        next_tag_addr := tag_next.tag.next_tag_addr } }

theorem is_prev_of_iff (x y : PlacedTag) :
    BoundaryTag.is_prev_of x y = true ↔ y.tag.prev_tag_addr = some x.addr := by
  unfold BoundaryTag.is_prev_of BoundaryTag.prev_tag_of
  cases y.tag.prev_tag_addr <;> simp

theorem is_next_of_iff (x y : PlacedTag) :
    BoundaryTag.is_next_of x y = true ↔ y.tag.next_tag_addr = some x.addr := by
  unfold BoundaryTag.is_next_of BoundaryTag.next_tag_of
  cases y.tag.next_tag_addr <;> simp

end BoundaryTag

namespace MemoryManager

/-- `MemoryManager::malloc`: scan the manager's tag slice in order with
`find`, taking the first tag whose `free_area_size` strictly exceeds the
request; `divide` it, and on success mark the carved tag allocated and return
its usable-area address.  The returned list is the slice after the call (the
scanned tag is whatever `divide` left at its address). -/
def malloc (H : Nat) : List PlacedTag → Nat → List PlacedTag × Option Nat
  | [], _ => ([], none)
  | t :: ts, request_size =>
    if request_size < t.tag.free_area_size then
      match BoundaryTag.divide H t request_size with
      | (t', none) => (t' :: ts, none)
      | (t', some free_tag) =>
        let marked : PlacedTag := { free_tag with tag := { free_tag.tag with is_alloc := true } }
        (t' :: ts, some (BoundaryTag.addr_free_area H marked))
    else
      let p := malloc H ts request_size
      (t :: p.1, p.2)

/-- `MemoryManager::free`: the source is a stub (`// TODO`) taking `&self`;
it performs no mutation at all. -/
def free (tags : List PlacedTag) (_usable_addr : Nat) : List PlacedTag :=
  tags

end MemoryManager

/-!
Chain-level semantics.  A region's tag chain is the address-ordered sequence
of tags tiling the region.  `Op.split i rs` applies `BoundaryTag::divide` to
the `i`-th tag (the carved block sits at the tail of that tag's free area,
hence immediately after it in address order); `Op.merge i` applies
`BoundaryTag::merge` to the `i`-th and `(i+1)`-th tags, the absorbed tag's
header bytes becoming part of the merged free area.  An out-of-range index
or the `panic!` case leaves the chain unchanged (the program would abort,
observing nothing further).
-/

inductive Op where
  | split (i : Nat) (request_size : Nat)
  | merge (i : Nat)
deriving Repr, DecidableEq

def applyOp (H : Nat) : List PlacedTag → Op → List PlacedTag
  | [], _ => []
  | t :: ts, Op.split 0 rs =>
    match BoundaryTag.divide H t rs with
    | (t', none) => t' :: ts
    | (t', some n) => t' :: n :: ts
  | t :: ts, Op.split (i + 1) rs => t :: applyOp H ts (Op.split i rs)
  | t :: ts, Op.merge 0 =>
    match ts with
    | [] => t :: ts
    | y :: ts' =>
      match BoundaryTag.merge H t y with
      | none => t :: y :: ts'
      | some m => m :: ts'
  | t :: ts, Op.merge (i + 1) => t :: applyOp H ts (Op.merge i)

def applyOps (H : Nat) (c : List PlacedTag) (ops : List Op) : List PlacedTag :=
  ops.foldl (applyOp H) c

/-- Bytes covered by the chain: each tag contributes its header plus its free
area. -/
def chainBytes (H : Nat) (c : List PlacedTag) : Nat :=
  (c.map fun t => H + t.tag.free_area_size).sum

/-- Sum of `free_area_size` over the chain. -/
def sumFree (c : List PlacedTag) : Nat :=
  (c.map fun t => t.tag.free_area_size).sum

/-! Helper lemmas about `divide` and `merge`. -/

namespace BoundaryTag

theorem divide_decline (H : Nat) (t : PlacedTag) (rs : Nat)
    (h : t.tag.free_area_size ≤ rs + H) : divide H t rs = (t, none) := by
  unfold divide
  simp [h]

theorem divide_carve (H : Nat) (t : PlacedTag) (rs : Nat)
    (h : rs + H < t.tag.free_area_size) :
    divide H t rs =
      ({ addr := t.addr
         tag := { is_alloc := t.tag.is_alloc
                  is_sentinel := false
                  free_area_size := t.tag.free_area_size - (rs + H)
                  prev_tag_addr := t.tag.prev_tag_addr
                  next_tag_addr := some (t.addr + H + t.tag.free_area_size - (rs + H)) } },
       some { addr := t.addr + H + t.tag.free_area_size - (rs + H)
              tag := { is_alloc := false
                       is_sentinel := true
                       free_area_size := rs
                       prev_tag_addr := some t.addr
                       next_tag_addr := none } }) := by
  have h' : ¬ t.tag.free_area_size ≤ rs + H := by omega
  simp [divide, from_memory, addr_free_area, h', Nat.add_sub_cancel]

theorem merge_some_shape (H : Nat) (x y m : PlacedTag)
    (h : merge H x y = some m) :
    (m = { x with tag := { x.tag with
            free_area_size := x.tag.free_area_size + (H + y.tag.free_area_size)
            is_sentinel := y.tag.is_sentinel
            next_tag_addr := y.tag.next_tag_addr } }
     ∧ is_prev_of x y = true ∧ is_next_of x y = false)
    ∨ (m = { y with tag := { y.tag with
            free_area_size := y.tag.free_area_size + (H + x.tag.free_area_size)
            is_sentinel := x.tag.is_sentinel
            next_tag_addr := x.tag.next_tag_addr } }
       ∧ is_prev_of x y = false ∧ is_next_of x y = true) := by
  unfold merge at h
  rcases hp : is_prev_of x y <;> rcases hn : is_next_of x y <;>
    simp [hp, hn] at h <;> simp [h.symm]

end BoundaryTag

/-!
Claim theorems.
-/

/-- C1: `split(tag, n)` produces no new tag and leaves the tag unchanged when
`free_area_size <= n + header_size`; otherwise it produces exactly one new tag
of usable size `n`, the original shrinking by exactly `n + header_size`. -/
theorem C1_split_threshold (H : Nat) (t : PlacedTag) (rs : Nat) :
    (t.tag.free_area_size ≤ rs + H → BoundaryTag.divide H t rs = (t, none))
    ∧ (rs + H < t.tag.free_area_size →
        ∃ t' n, BoundaryTag.divide H t rs = (t', some n)
          ∧ n.tag.free_area_size = rs
          ∧ t'.tag.free_area_size + (rs + H) = t.tag.free_area_size) := by
  constructor
  · exact fun h => BoundaryTag.divide_decline H t rs h
  · intro h
    rw [BoundaryTag.divide_carve H t rs h]
    refine ⟨_, _, rfl, rfl, ?_⟩
    show t.tag.free_area_size - (rs + H) + (rs + H) = t.tag.free_area_size
    omega

theorem C1_split_threshold_witness :
    (BoundaryTag.divide 48 ⟨0, ⟨false, true, 50, none, none⟩⟩ 10
        = (⟨0, ⟨false, true, 50, none, none⟩⟩, none))
    ∧ (∃ t' n, BoundaryTag.divide 48 ⟨0, ⟨false, true, 200, none, none⟩⟩ 10 = (t', some n)
        ∧ n.tag.free_area_size = 10
        ∧ t'.tag.free_area_size + (10 + 48) = 200) :=
  ⟨(C1_split_threshold 48 ⟨0, ⟨false, true, 50, none, none⟩⟩ 10).1 (by decide),
   (C1_split_threshold 48 ⟨0, ⟨false, true, 200, none, none⟩⟩ 10).2 (by decide)⟩

/-- C5 counterexample: dividing a tag that is not a sentinel and has a
successor (`is_sentinel = false`, `next_tag_addr = some 999`) yields a new tag
with `is_sentinel = true` and `next_tag_addr = none` — `from_memory` always
writes those values, so the new tag does not inherit the original tag's old
sentinel status or old forward link. -/
theorem C5_inherit_counterexample :
    ((BoundaryTag.divide 48 ⟨0, ⟨false, false, 200, none, some 999⟩⟩ 10).2.map
        fun n => (n.tag.is_sentinel, n.tag.next_tag_addr))
      = some (true, none)
    ∧ some ((true : Bool), (none : Option Nat)) ≠ some (false, some 999) := by
  decide

/-- C5 amended: when the split succeeds the new tag sits at
`usable_area_address + (free_area_size - required_size)`; the original keeps
its address and `prev_tag_addr`; the new tag is freshly initialized with
`is_sentinel = true` and no `next_tag_addr` (not inherited), and its
`prev_tag_addr` is the original tag's address. -/
theorem C5_split_placement (H : Nat) (t : PlacedTag) (rs : Nat)
    (h : rs + H < t.tag.free_area_size) :
    ∃ t' n, BoundaryTag.divide H t rs = (t', some n)
      ∧ n.addr = BoundaryTag.addr_free_area H t + (t.tag.free_area_size - (rs + H))
      ∧ t'.addr = t.addr
      ∧ t'.tag.prev_tag_addr = t.tag.prev_tag_addr
      ∧ n.tag.is_sentinel = true
      ∧ n.tag.next_tag_addr = none
      ∧ n.tag.prev_tag_addr = some t.addr := by
  rw [BoundaryTag.divide_carve H t rs h]
  refine ⟨_, _, rfl, ?_, rfl, rfl, rfl, rfl, rfl⟩
  show t.addr + H + t.tag.free_area_size - (rs + H)
      = BoundaryTag.addr_free_area H t + (t.tag.free_area_size - (rs + H))
  unfold BoundaryTag.addr_free_area
  omega

theorem C5_split_placement_witness :
    ∃ t' n, BoundaryTag.divide 48 ⟨4, ⟨false, false, 200, some 1, some 999⟩⟩ 10 = (t', some n)
      ∧ n.addr = BoundaryTag.addr_free_area 48 ⟨4, ⟨false, false, 200, some 1, some 999⟩⟩ + (200 - (10 + 48))
      ∧ t'.addr = 4
      ∧ t'.tag.prev_tag_addr = some 1
      ∧ n.tag.is_sentinel = true
      ∧ n.tag.next_tag_addr = none
      ∧ n.tag.prev_tag_addr = some 4 :=
  C5_split_placement 48 ⟨4, ⟨false, false, 200, some 1, some 999⟩⟩ 10 (by decide)

/-- C8: `merge` completes normally (the source does not hit its `panic!`)
exactly when exactly one of the two directional neighbor predicates holds
between its arguments. -/
theorem C8_merge_adjacency_check (H : Nat) (x y : PlacedTag) :
    (BoundaryTag.merge H x y).isSome = true ↔
      BoundaryTag.is_prev_of x y ≠ BoundaryTag.is_next_of x y := by
  unfold BoundaryTag.merge
  rcases hp : BoundaryTag.is_prev_of x y <;>
    rcases hn : BoundaryTag.is_next_of x y <;> simp

/-- C10 counterexample: two tags whose stored `prev_tag_addr` links point at
each other (and no forward links).  In each argument order exactly one of the
two adjacency predicates holds, yet `merge(a, b)` keeps `a` as the absorbing
tag while `merge(b, a)` keeps `b`, so the results differ. -/
theorem C10_merge_order_counterexample :
    BoundaryTag.is_prev_of ⟨0, ⟨false, false, 52, some 100, none⟩⟩
        ⟨100, ⟨false, false, 52, some 0, none⟩⟩ = true
    ∧ BoundaryTag.is_next_of ⟨0, ⟨false, false, 52, some 100, none⟩⟩
        ⟨100, ⟨false, false, 52, some 0, none⟩⟩ = false
    ∧ BoundaryTag.is_prev_of ⟨100, ⟨false, false, 52, some 0, none⟩⟩
        ⟨0, ⟨false, false, 52, some 100, none⟩⟩ = true
    ∧ BoundaryTag.is_next_of ⟨100, ⟨false, false, 52, some 0, none⟩⟩
        ⟨0, ⟨false, false, 52, some 100, none⟩⟩ = false
    ∧ BoundaryTag.merge 48 ⟨0, ⟨false, false, 52, some 100, none⟩⟩
        ⟨100, ⟨false, false, 52, some 0, none⟩⟩
      ≠ BoundaryTag.merge 48 ⟨100, ⟨false, false, 52, some 0, none⟩⟩
        ⟨0, ⟨false, false, 52, some 100, none⟩⟩ := by
  decide

/-- C10 amended: when the two tags are consistently linked as direct
neighbors in exactly one direction (`a.next_tag_addr` names `b`,
`b.prev_tag_addr` names `a`, and neither reverse link holds), `merge`
normalizes the pair internally and both argument orders produce the same
merged tag. -/
theorem C10_merge_order_insensitive (H : Nat) (a b : PlacedTag)
    (h1 : a.tag.next_tag_addr = some b.addr)
    (h2 : b.tag.prev_tag_addr = some a.addr)
    (h3 : b.tag.next_tag_addr ≠ some a.addr)
    (h4 : a.tag.prev_tag_addr ≠ some b.addr) :
    BoundaryTag.merge H a b = BoundaryTag.merge H b a := by
  have hpab : BoundaryTag.is_prev_of a b = true := (BoundaryTag.is_prev_of_iff a b).mpr h2
  have hnab : BoundaryTag.is_next_of a b = false := by
    rcases hx : BoundaryTag.is_next_of a b
    · rfl
    · exact absurd ((BoundaryTag.is_next_of_iff a b).mp hx) h3
  have hpba : BoundaryTag.is_prev_of b a = false := by
    rcases hx : BoundaryTag.is_prev_of b a
    · rfl
    · exact absurd ((BoundaryTag.is_prev_of_iff b a).mp hx) h4
  have hnba : BoundaryTag.is_next_of b a = true := (BoundaryTag.is_next_of_iff b a).mpr h1
  unfold BoundaryTag.merge
  rw [hpab, hnab, hpba, hnba]

theorem C10_merge_order_insensitive_witness :
    BoundaryTag.merge 48 ⟨0, ⟨false, false, 52, none, some 100⟩⟩
        ⟨100, ⟨false, true, 10, some 0, none⟩⟩
      = BoundaryTag.merge 48 ⟨100, ⟨false, true, 10, some 0, none⟩⟩
        ⟨0, ⟨false, false, 52, none, some 100⟩⟩ :=
  C10_merge_order_insensitive 48 ⟨0, ⟨false, false, 52, none, some 100⟩⟩
    ⟨100, ⟨false, true, 10, some 0, none⟩⟩ (by decide) (by decide) (by decide) (by decide)

theorem malloc_no_fit (H rs : Nat) (tags : List PlacedTag)
    (h : ∀ u ∈ tags, ¬ rs < u.tag.free_area_size) :
    MemoryManager.malloc H tags rs = (tags, none) := by
  induction tags with
  | nil => rfl
  | cons t ts ih =>
    have ht : ¬ rs < t.tag.free_area_size := h t (by simp)
    have hts := ih fun u hu => h u (by simp [hu])
    simp [MemoryManager.malloc, ht, hts]

theorem malloc_first_fit (H rs : Nat) (pre : List PlacedTag) (t : PlacedTag)
    (post : List PlacedTag)
    (hpre : ∀ u ∈ pre, ¬ rs < u.tag.free_area_size)
    (ht : rs < t.tag.free_area_size) :
    MemoryManager.malloc H (pre ++ t :: post) rs =
      (pre ++ (BoundaryTag.divide H t rs).1 :: post,
        match (BoundaryTag.divide H t rs).2 with
        | none => none
        | some n =>
          some (BoundaryTag.addr_free_area H
            { n with tag := { n.tag with is_alloc := true } })) := by
  induction pre with
  | nil =>
    simp only [List.nil_append]
    rcases hd : BoundaryTag.divide H t rs with ⟨t', n⟩
    cases n with
    | none => simp [MemoryManager.malloc, ht, hd]
    | some ft => simp [MemoryManager.malloc, ht, hd]
  | cons u us ih =>
    have hu : ¬ rs < u.tag.free_area_size := hpre u (by simp)
    have hus := ih fun v hv => hpre v (by simp [hv])
    simp only [List.cons_append]
    simp [MemoryManager.malloc, hu, hus]

/-- C2 counterexample: the scan in `malloc` never tests `is_alloc`.  With a
single tag already marked allocated but with a large `free_area_size`,
`malloc` still selects and divides it, returning an address, even though no
free tag qualifies (so the claim's selection rule would return none). -/
theorem C2_malloc_ignores_alloc_counterexample :
    (⟨0, ⟨true, true, 100, none, none⟩⟩ : PlacedTag).tag.is_alloc = true
    ∧ ((MemoryManager.malloc 48 [⟨0, ⟨true, true, 100, none, none⟩⟩] 10).2).isSome = true := by
  decide

/-- C2 amended: `malloc` scans the manager's tags in order and selects the
first tag — whether or not it is marked allocated — whose `free_area_size`
strictly exceeds the request; it returns none when no tag qualifies, and when
the selected tag's `divide` declines it returns none without trying a later
candidate. -/
theorem C2_malloc_first_fit (H rs : Nat) :
    (∀ tags : List PlacedTag, (∀ u ∈ tags, ¬ rs < u.tag.free_area_size) →
        MemoryManager.malloc H tags rs = (tags, none))
    ∧ (∀ (pre : List PlacedTag) (t : PlacedTag) (post : List PlacedTag),
        (∀ u ∈ pre, ¬ rs < u.tag.free_area_size) →
        rs < t.tag.free_area_size →
        MemoryManager.malloc H (pre ++ t :: post) rs =
          (pre ++ (BoundaryTag.divide H t rs).1 :: post,
            match (BoundaryTag.divide H t rs).2 with
            | none => none
            | some n =>
              some (BoundaryTag.addr_free_area H
                { n with tag := { n.tag with is_alloc := true } }))) :=
  ⟨fun tags h => malloc_no_fit H rs tags h,
   fun pre t post hpre ht => malloc_first_fit H rs pre t post hpre ht⟩

theorem C2_malloc_first_fit_witness :
    (MemoryManager.malloc 48 [⟨0, ⟨false, true, 5, none, none⟩⟩] 10
        = ([⟨0, ⟨false, true, 5, none, none⟩⟩], none))
    ∧ MemoryManager.malloc 48 ([⟨0, ⟨false, true, 5, none, none⟩⟩] ++
          ⟨8, ⟨false, true, 100, none, none⟩⟩ :: []) 10 =
        ([⟨0, ⟨false, true, 5, none, none⟩⟩] ++
            (BoundaryTag.divide 48 ⟨8, ⟨false, true, 100, none, none⟩⟩ 10).1 :: [],
          match (BoundaryTag.divide 48 ⟨8, ⟨false, true, 100, none, none⟩⟩ 10).2 with
          | none => none
          | some n =>
            some (BoundaryTag.addr_free_area 48
              { n with tag := { n.tag with is_alloc := true } })) :=
  ⟨(C2_malloc_first_fit 48 10).1 [⟨0, ⟨false, true, 5, none, none⟩⟩] (by decide),
   (C2_malloc_first_fit 48 10).2 [⟨0, ⟨false, true, 5, none, none⟩⟩]
      ⟨8, ⟨false, true, 100, none, none⟩⟩ [] (by decide) (by decide)⟩

/-- C9: a `malloc` that returns none mutates nothing — the tag list after the
call is exactly the tag list before it, both when no tag qualifies and when
the selected tag's `divide` declines (the decline branch writes no field). -/
theorem C9_malloc_failure_pure (H rs : Nat) (tags : List PlacedTag)
    (h : (MemoryManager.malloc H tags rs).2 = none) :
    (MemoryManager.malloc H tags rs).1 = tags := by
  induction tags with
  | nil => rfl
  | cons t ts ih =>
    by_cases hlt : rs < t.tag.free_area_size
    · by_cases hle : t.tag.free_area_size ≤ rs + H
      · have hd := BoundaryTag.divide_decline H t rs hle
        simp [MemoryManager.malloc, hlt, hd]
      · have hd := BoundaryTag.divide_carve H t rs (by omega)
        simp [MemoryManager.malloc, hlt, hd] at h
    · simp only [MemoryManager.malloc, if_neg hlt] at h ⊢
      simp only [List.cons.injEq, true_and]
      exact ih h

theorem C9_malloc_failure_pure_witness :
    (MemoryManager.malloc 48 [⟨0, ⟨false, true, 20, none, none⟩⟩] 10).1
      = [⟨0, ⟨false, true, 20, none, none⟩⟩] :=
  C9_malloc_failure_pure 48 10 [⟨0, ⟨false, true, 20, none, none⟩⟩] (by decide)

/-- C7: the source's `MemoryManager::free` is an unimplemented stub — it
takes `&self` and performs no write at all, so it neither recovers the tag,
nor clears `is_alloc`, nor merges neighbors; every tag is left exactly as it
was. -/
theorem C7_free_is_stub (tags : List PlacedTag) (usable_addr : Nat) :
    MemoryManager.free tags usable_addr = tags
    ∧ (MemoryManager.free tags usable_addr).map (fun t => t.tag.is_alloc)
        = tags.map fun t => t.tag.is_alloc :=
  ⟨rfl, rfl⟩

/-! Chain invariants. -/

theorem chainBytes_cons (H : Nat) (t : PlacedTag) (ts : List PlacedTag) :
    chainBytes H (t :: ts) = H + t.tag.free_area_size + chainBytes H ts := by
  simp [chainBytes]

theorem chainBytes_eq (H : Nat) (c : List PlacedTag) :
    chainBytes H c = sumFree c + H * c.length := by
  induction c with
  | nil => simp [chainBytes, sumFree]
  | cons t ts ih =>
    rw [chainBytes_cons, ih]
    simp [sumFree, Nat.mul_succ]
    omega

theorem chainBytes_applyOp (H : Nat) :
    ∀ (c : List PlacedTag) (op : Op), chainBytes H (applyOp H c op) = chainBytes H c := by
  intro c
  induction c with
  | nil => intro op; cases op <;> rfl
  | cons t ts ih =>
    intro op
    cases op with
    | split i rs =>
      cases i with
      | zero =>
        by_cases hle : t.tag.free_area_size ≤ rs + H
        · simp [applyOp, BoundaryTag.divide_decline H t rs hle]
        · have hlt : rs + H < t.tag.free_area_size := by omega
          simp [applyOp, BoundaryTag.divide_carve H t rs hlt, chainBytes_cons]
          omega
      | succ i =>
        show chainBytes H (t :: applyOp H ts (Op.split i rs)) = chainBytes H (t :: ts)
        rw [chainBytes_cons, chainBytes_cons, ih (Op.split i rs)]
    | merge i =>
      cases i with
      | zero =>
        cases ts with
        | nil => rfl
        | cons y ts' =>
          rcases hm : BoundaryTag.merge H t y with _ | m
          · simp [applyOp, hm]
          · have happ : applyOp H (t :: y :: ts') (Op.merge 0) = m :: ts' := by
              simp [applyOp, hm]
            rw [happ]
            rcases BoundaryTag.merge_some_shape H t y m hm with ⟨hme, _, _⟩ | ⟨hme, _, _⟩ <;>
              subst hme <;> simp [chainBytes_cons] <;> omega
      | succ i =>
        show chainBytes H (t :: applyOp H ts (Op.merge i)) = chainBytes H (t :: ts)
        rw [chainBytes_cons, chainBytes_cons, ih (Op.merge i)]

theorem chainBytes_applyOps (H : Nat) (c : List PlacedTag) (ops : List Op) :
    chainBytes H (applyOps H c ops) = chainBytes H c := by
  induction ops generalizing c with
  | nil => rfl
  | cons op ops ih =>
    show chainBytes H (applyOps H (applyOp H c op) ops) = chainBytes H c
    rw [ih, chainBytes_applyOp]

/-- C3: starting from the single tag written by `from_memory` over a region
of `L` bytes, any sequence of chain-level split and merge operations keeps
`sum(free_area_size) + header_size * tag_count = L` (tags taken in the
region's address order). -/
theorem C3_size_conservation (H addr L : Nat) (ops : List Op) (hL : H ≤ L) :
    sumFree (applyOps H [BoundaryTag.from_memory H addr L] ops)
      + H * (applyOps H [BoundaryTag.from_memory H addr L] ops).length = L := by
  have h1 := chainBytes_applyOps H [BoundaryTag.from_memory H addr L] ops
  have h2 := chainBytes_eq H (applyOps H [BoundaryTag.from_memory H addr L] ops)
  have h3 : chainBytes H [BoundaryTag.from_memory H addr L] = L := by
    show (List.map (fun t => H + t.tag.free_area_size) [BoundaryTag.from_memory H addr L]).sum = L
    show H + (L - H) + 0 = L
    omega
  omega

theorem C3_size_conservation_witness :
    sumFree (applyOps 48 [BoundaryTag.from_memory 48 0 300]
        [Op.split 0 100, Op.split 0 10, Op.merge 0])
      + 48 * (applyOps 48 [BoundaryTag.from_memory 48 0 300]
        [Op.split 0 100, Op.split 0 10, Op.merge 0]).length = 300 :=
  C3_size_conservation 48 0 300 [Op.split 0 100, Op.split 0 10, Op.merge 0] (by decide)

/-- A tag's sentinel flag agrees with the absence of its forward link. -/
def sentinelNextInv (c : List PlacedTag) : Prop :=
  ∀ t ∈ c, (t.tag.is_sentinel = true ↔ t.tag.next_tag_addr = none)

/-- The final tag of the chain carries the sentinel flag. -/
def lastIsSentinel : List PlacedTag → Prop
  | [] => False
  | [t] => t.tag.is_sentinel = true
  | _ :: t :: ts => lastIsSentinel (t :: ts)

theorem inv_applyOp (H : Nat) :
    ∀ (c : List PlacedTag) (op : Op),
      sentinelNextInv c → lastIsSentinel c →
      sentinelNextInv (applyOp H c op) ∧ lastIsSentinel (applyOp H c op) := by
  intro c
  induction c with
  | nil => exact fun op h1 h2 => h2.elim
  | cons t ts ih =>
    intro op h1 h2
    have h1t := (List.forall_mem_cons.mp h1).1
    have h1s := (List.forall_mem_cons.mp h1).2
    cases op with
    | split i rs =>
      cases i with
      | zero =>
        by_cases hle : t.tag.free_area_size ≤ rs + H
        · have heq : applyOp H (t :: ts) (Op.split 0 rs) = t :: ts := by
            simp [applyOp, BoundaryTag.divide_decline H t rs hle]
          rw [heq]; exact ⟨h1, h2⟩
        · have hlt : rs + H < t.tag.free_area_size := by omega
          have heq : applyOp H (t :: ts) (Op.split 0 rs) =
              ({ addr := t.addr
                 tag := ⟨t.tag.is_alloc, false, t.tag.free_area_size - (rs + H),
                   t.tag.prev_tag_addr,
                   some (t.addr + H + t.tag.free_area_size - (rs + H))⟩ } : PlacedTag) ::
              ({ addr := t.addr + H + t.tag.free_area_size - (rs + H)
                 tag := ⟨false, true, rs, some t.addr, none⟩ } : PlacedTag) :: ts := by
            simp [applyOp, BoundaryTag.divide_carve H t rs hlt]
          rw [heq]
          refine ⟨List.forall_mem_cons.mpr ⟨by simp, List.forall_mem_cons.mpr ⟨by simp, h1s⟩⟩, ?_⟩
          cases ts with
          | nil => rfl
          | cons y ts' => exact h2
      | succ i =>
        show sentinelNextInv (t :: applyOp H ts (Op.split i rs))
          ∧ lastIsSentinel (t :: applyOp H ts (Op.split i rs))
        cases ts with
        | nil => exact ⟨h1, h2⟩
        | cons y ts' =>
          obtain ⟨ha, hb⟩ := ih (Op.split i rs) h1s h2
          refine ⟨List.forall_mem_cons.mpr ⟨h1t, ha⟩, ?_⟩
          cases hc : applyOp H (y :: ts') (Op.split i rs) with
          | nil => rw [hc] at hb; exact hb.elim
          | cons z rest => rw [hc] at hb; exact hb
    | merge i =>
      cases i with
      | zero =>
        cases ts with
        | nil => exact ⟨h1, h2⟩
        | cons y ts' =>
          have h1y := (List.forall_mem_cons.mp h1s).1
          have h1s' := (List.forall_mem_cons.mp h1s).2
          rcases hm : BoundaryTag.merge H t y with _ | m
          · have heq : applyOp H (t :: y :: ts') (Op.merge 0) = t :: y :: ts' := by
              simp [applyOp, hm]
            rw [heq]; exact ⟨h1, h2⟩
          · have happ : applyOp H (t :: y :: ts') (Op.merge 0) = m :: ts' := by
              simp [applyOp, hm]
            rw [happ]
            rcases BoundaryTag.merge_some_shape H t y m hm with ⟨hme, hp, hn⟩ | ⟨hme, hp, hn⟩
            · refine ⟨List.forall_mem_cons.mpr ⟨?_, h1s'⟩, ?_⟩
              · rw [hme]; simpa using h1y
              · cases ts' with
                | nil =>
                  have hy : y.tag.is_sentinel = true := h2
                  rw [hme]; simpa using hy
                | cons z rest => exact h2
            · refine ⟨List.forall_mem_cons.mpr ⟨?_, h1s'⟩, ?_⟩
              · rw [hme]; simpa using h1t
              · cases ts' with
                | nil =>
                  have hy : y.tag.is_sentinel = true := h2
                  have hynone : y.tag.next_tag_addr = none := h1y.mp hy
                  have hsome := (BoundaryTag.is_next_of_iff t y).mp hn
                  rw [hynone] at hsome
                  cases hsome
                | cons z rest => exact h2
      | succ i =>
        show sentinelNextInv (t :: applyOp H ts (Op.merge i))
          ∧ lastIsSentinel (t :: applyOp H ts (Op.merge i))
        cases ts with
        | nil => exact ⟨h1, h2⟩
        | cons y ts' =>
          obtain ⟨ha, hb⟩ := ih (Op.merge i) h1s h2
          refine ⟨List.forall_mem_cons.mpr ⟨h1t, ha⟩, ?_⟩
          cases hc : applyOp H (y :: ts') (Op.merge i) with
          | nil => rw [hc] at hb; exact hb.elim
          | cons z rest => rw [hc] at hb; exact hb

theorem inv_applyOps (H : Nat) (c : List PlacedTag) (ops : List Op)
    (h1 : sentinelNextInv c) (h2 : lastIsSentinel c) :
    sentinelNextInv (applyOps H c ops) ∧ lastIsSentinel (applyOps H c ops) := by
  induction ops generalizing c with
  | nil => exact ⟨h1, h2⟩
  | cons op ops ih =>
    obtain ⟨ha, hb⟩ := inv_applyOp H c op h1 h2
    exact ih (applyOp H c op) ha hb

/-- C4 counterexample: splitting the head tag twice (as two consecutive
`malloc`s do) leaves a chain in which two distinct tags carry
`is_sentinel = true` — sentinel uniqueness fails. -/
theorem C4_two_sentinels_counterexample :
    ((applyOps 48 [BoundaryTag.from_memory 48 0 300]
        [Op.split 0 100, Op.split 0 10]).filter fun t => t.tag.is_sentinel).length = 2 := by
  decide

/-- C4 amended: after any sequence of split and merge operations starting
from a freshly initialized region chain, every tag has `is_sentinel = true`
exactly when it has no `next_tag_addr`, and the chain's final tag is a
sentinel; uniqueness does not hold in general (splitting a non-terminal tag
creates a second sentinel). -/
theorem C4_sentinel_no_next (H addr L : Nat) (ops : List Op) :
    sentinelNextInv (applyOps H [BoundaryTag.from_memory H addr L] ops)
    ∧ lastIsSentinel (applyOps H [BoundaryTag.from_memory H addr L] ops) := by
  refine inv_applyOps H _ ops ?_ ?_
  · intro u hu
    have : u = BoundaryTag.from_memory H addr L := by simpa using hu
    rw [this]
    exact ⟨fun _ => rfl, fun _ => rfl⟩
  · show (BoundaryTag.from_memory H addr L).tag.is_sentinel = true
    rfl

/-- C6: merging two adjacent tags updates the absorbing tag's size, sentinel
flag and forward link, but leaves the absorbed tag's successor untouched: the
successor's `prev_tag_addr` still names the absorbed tag's address (100), not
the merged tag's address (0). -/
theorem C6_no_successor_repoint :
    (applyOp 48 [⟨0, ⟨false, false, 52, none, some 100⟩⟩,
        ⟨100, ⟨false, false, 52, some 0, some 200⟩⟩,
        ⟨200, ⟨false, true, 10, some 100, none⟩⟩] (Op.merge 0)).map
        (fun t => (t.addr, t.tag.free_area_size, t.tag.next_tag_addr, t.tag.prev_tag_addr))
      = [(0, 152, some 200, none), (200, 10, none, some 100)]
    ∧ (some (100 : Nat)) ≠ some 0 := by
  decide
